import Mathlib

/-!
Verification of the SSE engine in `src/cpp/HybridNitroEventSource.cpp`.

The C++ class is embedded shallowly: `std::string` values become `List Char`,
the mutable fields of the object become explicit records threaded through the
functions, and each C++ member function becomes a Lean function returning the
updated state together with its observable output (emitted events, dispatch
records).  The embedding is sequential: the atomic `_closed`/`_running` flags
are plain `Bool` fields, which is faithful for every single-threaded execution
of the member functions.
-/

namespace NitroEventSource

/-- Characters of a `std::string` value. -/
abbrev Str := List Char

/-- `NitroEventSourceEvent`: `{ id, type, data }`. -/
structure Event where
  id : Str
  type : Str
  data : Str
deriving DecidableEq, Repr

/-- The transient parse fields `_event_type`, `_event_data` and the persisted
`_last_event_id` of `HybridNitroEventSource`. -/
structure SSEFields where
  event_type : Str
  event_data : Str
  last_event_id : Str
deriving DecidableEq, Repr

/-- `_buffer` together with the parse fields: the state read and written by
`parse_sse_chunk`. -/
structure ParserState where
  buffer : Str
  fields : SSEFields
deriving DecidableEq, Repr

/-- The parser state of a freshly constructed object: all strings empty. -/
def initParserState : ParserState := ⟨[], ⟨[], [], []⟩⟩

/-- Lines 416-419: strip one trailing carriage return from a line
(`if (!line.empty() && line.back() == '\r') line.remove_suffix(1)`). -/
def stripCR (l : Str) : Str :=
  if l.getLast? = some '\r' then l.dropLast else l

/-- Lines 427-434: split a line at its first colon (`line.find(single colon)`);
`none` when the line has no colon, in which case the line is ignored. -/
def splitColon : Str → Option (Str × Str)
  | [] => none
  | c :: rest =>
    if c = ':' then some ([], rest)
    else (splitColon rest).map (fun p => (c :: p.1, p.2))

/-- Lines 436-439: strip at most one leading space from a field value. -/
def stripLeadingSpace (v : Str) : Str :=
  match v with
  | ' ' :: rest => rest
  | _ => v

/-- `process_sse_event` (lines 476-497, taken with `_closed` false): if
`_event_data` is empty do nothing; otherwise emit one event whose type defaults
to `"message"` and whose id is the persisted `_last_event_id`, then clear the
transient type/data fields. -/
def process_sse_event (f : SSEFields) : SSEFields × List Event :=
  if f.event_data = [] then (f, [])
  else
    ({ f with event_type := [], event_data := [] },
     [⟨f.last_event_id, if f.event_type = [] then "message".toList else f.event_type,
       f.event_data⟩])

/-- The digit prefix consumed by `std::stoi` after sign handling. -/
def stoiDigits : Str → Str
  | [] => []
  | c :: rest => if c.isDigit then c :: stoiDigits rest else []

/-- The whitespace characters `std::stoi` (via `isspace`) skips. -/
def isSpaceChar (c : Char) : Bool :=
  c = ' ' || c = '\t' || c = '\n' || c = '\x0b' || c = '\x0c' || c = '\r'

/-- Numeric value of a digit run. -/
def digitsToNat (l : Str) : Nat :=
  l.foldl (fun acc c => 10 * acc + (c.toNat - '0'.toNat)) 0

/-- Model of `std::stoi` on the full value string: skip leading whitespace,
read an optional sign and a nonempty digit run; `none` models a thrown
exception (no digits, or the value exceeds the `int` range). -/
def stoi (v : Str) : Option Int :=
  let v1 := v.dropWhile (fun c => isSpaceChar c)
  let signed : Bool × Str :=
    match v1 with
    | '-' :: rest => (true, rest)
    | '+' :: rest => (false, rest)
    | _ => (false, v1)
  let ds := stoiDigits signed.2
  if ds = [] then none
  else
    let n : Int := (digitsToNat ds : Nat)
    let n := if signed.1 then -n else n
    if n < -2147483648 ∨ 2147483647 < n then none else some n

/-- The value computed by the `retry` branch (lines 459-465):
`std::clamp(std::stoi(value), 100, 60000)`; `none` models the caught
exception for a malformed value.  The computed value is discarded by the code
(`static_cast<void>(clamped_retry)` under a TODO comment), so it appears
nowhere in the state. -/
def retryClamped (v : Str) : Option Int :=
  (stoi v).map (fun n => max 100 (min n 60000))

/-- Lines 441-448: append a `data:` value to `_event_data`, inserting a `'\n'`
separator only when the accumulated data is nonempty. -/
def appendData (d v : Str) : Str :=
  if d = [] then v else d ++ '\n' :: v

/-- The body of the line loop of `parse_sse_chunk` (lines 414-471): process one
complete line, returning the updated fields and any event emitted by a blank
line.  The `retry` branch computes `retryClamped value` and discards it, so it
leaves the state untouched. -/
def processLine (f : SSEFields) (line0 : Str) : SSEFields × List Event :=
  let line := stripCR line0
  if line = [] then process_sse_event f
  else
    match splitColon line with
    | none => (f, [])
    | some (field, rawValue) =>
      let value := stripLeadingSpace rawValue
      if field = "data".toList then
        ({ f with event_data := appendData f.event_data value }, [])
      else if field = "event".toList then
        ({ f with event_type := value }, [])
      else if field = "id".toList then
        ({ f with last_event_id := value }, [])
      else
        (f, [])

/-- Split off the first newline-terminated line of the buffer
(`_buffer.find(newline, start)`, line 412); `none` when no newline remains and
the whole buffer is kept as the unconsumed tail. -/
def breakLine : Str → Option (Str × Str)
  | [] => none
  | c :: rest =>
    if c = '\n' then some ([], rest)
    else (breakLine rest).map (fun p => (c :: p.1, p.2))

theorem breakLine_rest_length {buf line rest : Str}
    (h : breakLine buf = some (line, rest)) : rest.length < buf.length := by
  induction buf generalizing line rest with
  | nil => simp [breakLine] at h
  | cons c cs ih =>
    rw [breakLine] at h
    split at h
    · obtain ⟨rfl, rfl⟩ : ([] : Str) = line ∧ cs = rest := by
        simpa using h
      simp
    · cases hb : breakLine cs with
      | none => rw [hb] at h; simp at h
      | some p =>
        rw [hb] at h
        obtain ⟨l', r'⟩ := p
        obtain ⟨h1, h2⟩ : c :: l' = line ∧ r' = rest := by simpa using h
        subst h2
        exact Nat.lt_trans (ih hb) (Nat.lt_succ_self _)

/-- The `while` loop of `parse_sse_chunk` (lines 409-473): process every
newline-terminated line of the buffer in order; returns the final fields, the
events emitted, and the unconsumed tail (the part after the last newline). -/
def parseLoop (f : SSEFields) (buf : Str) : SSEFields × List Event × Str :=
  match h : breakLine buf with
  | none => (f, [], buf)
  | some (line, rest) =>
    let r1 := processLine f line
    let r2 := parseLoop r1.1 rest
    (r2.1, r1.2 ++ r2.2.1, r2.2.2)
termination_by buf.length
decreasing_by exact breakLine_rest_length h

theorem parseLoop_none {f : SSEFields} {buf : Str} (h : breakLine buf = none) :
    parseLoop f buf = (f, [], buf) := by
  rw [parseLoop, h]

theorem parseLoop_some {f : SSEFields} {buf line rest : Str}
    (h : breakLine buf = some (line, rest)) :
    parseLoop f buf =
      ((parseLoop (processLine f line).1 rest).1,
       (processLine f line).2 ++ (parseLoop (processLine f line).1 rest).2.1,
       (parseLoop (processLine f line).1 rest).2.2) := by
  rw [parseLoop, h]

/-- `parse_sse_chunk` (lines 398-474, taken with `_closed` false): return
immediately on an empty chunk; otherwise append the chunk to `_buffer`, process
every complete line, and keep the unterminated tail as the new buffer. -/
def parse_sse_chunk (st : ParserState) (chunk : Str) : ParserState × List Event :=
  if chunk = [] then (st, [])
  else
    let r := parseLoop st.fields (st.buffer ++ chunk)
    (⟨r.2.2, r.1⟩, r.2.1)

/-- Feed a sequence of chunks through `parse_sse_chunk` one call at a time,
concatenating the emitted events. -/
def feedChunks (st : ParserState) : List Str → ParserState × List Event
  | [] => (st, [])
  | c :: cs =>
    let r1 := parse_sse_chunk st c
    let r2 := feedChunks r1.1 cs
    (r2.1, r1.2 ++ r2.2)

/-- Structural reformulation of `parseLoop`, accumulating the current line in
reverse; used to evaluate the well-founded `parseLoop` on concrete inputs. -/
def scanLines (f : SSEFields) (acc : Str) : Str → SSEFields × List Event × Str
  | [] => (f, [], acc.reverse)
  | c :: rest =>
    if c = '\n' then
      let r1 := processLine f acc.reverse
      let r2 := scanLines r1.1 [] rest
      (r2.1, r1.2 ++ r2.2.1, r2.2.2)
    else scanLines f (c :: acc) rest

theorem breakLine_of_no_newline {l : Str} (h : '\n' ∉ l) (m : Str) :
    breakLine (l ++ '\n' :: m) = some (l, m) := by
  induction l with
  | nil => simp [breakLine]
  | cons c cs ih =>
    have hc : c ≠ '\n' := fun hc => h (by simp [hc])
    have ih' := ih (fun hm => h (List.mem_cons_of_mem _ hm))
    simp [breakLine, hc, ih']

theorem breakLine_eq_none_of_no_newline {l : Str} (h : '\n' ∉ l) :
    breakLine l = none := by
  induction l with
  | nil => rfl
  | cons c cs ih =>
    have hc : c ≠ '\n' := fun hc => h (by simp [hc])
    have ih' := ih (fun hm => h (List.mem_cons_of_mem _ hm))
    simp [breakLine, hc, ih']

theorem scanLines_eq_parseLoop (f : SSEFields) (acc rest : Str)
    (h : '\n' ∉ acc) :
    scanLines f acc rest = parseLoop f (acc.reverse ++ rest) := by
  induction rest generalizing f acc with
  | nil =>
    have : breakLine acc.reverse = none :=
      breakLine_eq_none_of_no_newline (by simpa using h)
    simp [scanLines, parseLoop_none this]
  | cons c cs ih =>
    by_cases hc : c = '\n'
    · subst hc
      have hb : breakLine (acc.reverse ++ '\n' :: cs) = some (acc.reverse, cs) :=
        breakLine_of_no_newline (by simpa using h) cs
      rw [parseLoop_some hb]
      simp only [scanLines, if_pos rfl]
      rw [ih _ [] (by simp)]
      simp
    · have hacc : '\n' ∉ c :: acc := by
        intro hm
        rcases List.mem_cons.mp hm with h1 | h2
        · exact hc h1.symm
        · exact h h2
      simp only [scanLines, if_neg hc]
      rw [ih _ (c :: acc) hacc]
      simp

theorem parseLoop_eq_scanLines (f : SSEFields) (buf : Str) :
    parseLoop f buf = scanLines f [] buf := by
  rw [scanLines_eq_parseLoop f [] buf (by simp)]
  simp

/-- Executable form of `parse_sse_chunk`, provably equal to it; lets concrete
inputs be settled by `decide`. -/
def parseChunkExec (st : ParserState) (chunk : Str) : ParserState × List Event :=
  if chunk = [] then (st, [])
  else
    let r := scanLines st.fields [] (st.buffer ++ chunk)
    (⟨r.2.2, r.1⟩, r.2.1)

theorem parse_sse_chunk_eq_exec (st : ParserState) (chunk : Str) :
    parse_sse_chunk st chunk = parseChunkExec st chunk := by
  unfold parse_sse_chunk parseChunkExec
  rw [parseLoop_eq_scanLines]

theorem breakLine_append_some {x line rest : Str}
    (h : breakLine x = some (line, rest)) (y : Str) :
    breakLine (x ++ y) = some (line, rest ++ y) := by
  induction x generalizing line rest with
  | nil => simp [breakLine] at h
  | cons c cs ih =>
    rw [breakLine] at h
    by_cases hc : c = '\n'
    · rw [if_pos hc] at h
      obtain ⟨rfl, rfl⟩ : ([] : Str) = line ∧ cs = rest := by simpa using h
      simp [breakLine, hc]
    · rw [if_neg hc] at h
      cases hb : breakLine cs with
      | none => rw [hb] at h; simp at h
      | some p =>
        rw [hb] at h
        obtain ⟨l', r'⟩ := p
        obtain ⟨h1, h2⟩ : c :: l' = line ∧ r' = rest := by simpa using h
        subst h2
        have := ih hb
        simp [breakLine, hc, this, ← h1]

theorem parseLoop_append_aux (n : Nat) :
    ∀ (f : SSEFields) (x y : Str), x.length ≤ n →
    parseLoop f (x ++ y) =
      ((parseLoop (parseLoop f x).1 ((parseLoop f x).2.2 ++ y)).1,
       (parseLoop f x).2.1 ++
         (parseLoop (parseLoop f x).1 ((parseLoop f x).2.2 ++ y)).2.1,
       (parseLoop (parseLoop f x).1 ((parseLoop f x).2.2 ++ y)).2.2) := by
  induction n with
  | zero =>
    intro f x y hx
    have hx0 : x = [] := List.eq_nil_of_length_eq_zero (Nat.le_zero.mp hx)
    subst hx0
    rw [parseLoop_none (show breakLine [] = none from rfl)]
    simp
  | succ n ih =>
    intro f x y hx
    cases hb : breakLine x with
    | none =>
      rw [parseLoop_none hb]
      simp
    | some p =>
      obtain ⟨line, rest⟩ := p
      have hb' := breakLine_append_some hb y
      rw [parseLoop_some hb', parseLoop_some hb]
      have hr : rest.length ≤ n :=
        Nat.lt_succ_iff.mp (Nat.lt_of_lt_of_le (breakLine_rest_length hb) hx)
      rw [ih (processLine f line).1 rest y hr]
      simp

theorem parseLoop_append (f : SSEFields) (x y : Str) :
    parseLoop f (x ++ y) =
      ((parseLoop (parseLoop f x).1 ((parseLoop f x).2.2 ++ y)).1,
       (parseLoop f x).2.1 ++
         (parseLoop (parseLoop f x).1 ((parseLoop f x).2.2 ++ y)).2.1,
       (parseLoop (parseLoop f x).1 ((parseLoop f x).2.2 ++ y)).2.2) :=
  parseLoop_append_aux x.length f x y (Nat.le_refl _)

theorem parse_sse_chunk_append (st : ParserState) (a b : Str) :
    parse_sse_chunk st (a ++ b) =
      ((parse_sse_chunk (parse_sse_chunk st a).1 b).1,
       (parse_sse_chunk st a).2 ++ (parse_sse_chunk (parse_sse_chunk st a).1 b).2) := by
  by_cases ha : a = []
  · subst ha
    simp [parse_sse_chunk]
  · by_cases hb : b = []
    · subst hb
      simp [parse_sse_chunk, ha]
    · have hab : a ++ b ≠ [] := fun h => ha (List.append_eq_nil.mp h).1
      simp only [parse_sse_chunk, if_neg ha, if_neg hb, if_neg hab]
      have := parseLoop_append st.fields (st.buffer ++ a) b
      rw [List.append_assoc] at this
      rw [this]

/-- Process a list of already-split lines in order, concatenating the events;
the image of the loop body over a newline-free line list. -/
def foldLines (f : SSEFields) : List Str → SSEFields × List Event
  | [] => (f, [])
  | l :: ls =>
    let r1 := processLine f l
    let r2 := foldLines r1.1 ls
    (r2.1, r1.2 ++ r2.2)

/-- The byte stream obtained by terminating each given line with `'\n'`. -/
def fieldLineStream (lines : List Str) : Str :=
  (lines.map (· ++ ['\n'])).flatten

theorem fieldLineStream_cons (l : Str) (ls : List Str) :
    fieldLineStream (l :: ls) = l ++ '\n' :: fieldLineStream ls := by
  simp [fieldLineStream]

theorem parseLoop_lines (f : SSEFields) (ls : List Str)
    (h : ∀ l ∈ ls, '\n' ∉ l) :
    parseLoop f (fieldLineStream ls) = ((foldLines f ls).1, (foldLines f ls).2, []) := by
  induction ls generalizing f with
  | nil =>
    simp [fieldLineStream, foldLines, parseLoop_none (show breakLine [] = none from rfl)]
  | cons l ls ih =>
    have hl : '\n' ∉ l := h l (List.mem_cons_self _ _)
    have hb : breakLine (l ++ '\n' :: fieldLineStream ls) = some (l, fieldLineStream ls) :=
      breakLine_of_no_newline hl _
    rw [fieldLineStream_cons, parseLoop_some hb,
        ih _ (fun x hx => h x (List.mem_cons_of_mem _ hx))]
    simp [foldLines]

theorem foldLines_append (f : SSEFields) (xs ys : List Str) :
    foldLines f (xs ++ ys) =
      ((foldLines (foldLines f xs).1 ys).1,
       (foldLines f xs).2 ++ (foldLines (foldLines f xs).1 ys).2) := by
  induction xs generalizing f with
  | nil => simp [foldLines]
  | cons x xs ih =>
    simp only [List.cons_append, foldLines]
    rw [show xs.append ys = xs ++ ys from rfl, ih]
    simp

theorem feedChunks_flatten (st : ParserState) (cs : List Str) :
    feedChunks st cs = parse_sse_chunk st cs.flatten := by
  induction cs generalizing st with
  | nil => simp [feedChunks, parse_sse_chunk]
  | cons c cs ih =>
    rw [List.flatten_cons]
    rw [parse_sse_chunk_append st c cs.flatten]
    simp only [feedChunks, ih]

/-- An SSE `data` field line carrying value `v`, in the conventional
`data: v` form. -/
def dataLine (v : Str) : Str := "data: ".toList ++ v

/-- An SSE `id` field line carrying value `v`. -/
def idLine (v : Str) : Str := "id: ".toList ++ v

/-- An SSE `retry` field line carrying value `v`. -/
def retryLine (v : Str) : Str := "retry: ".toList ++ v

/-- The field name the loop body would dispatch on for a line: the part of the
CR-stripped line before its first colon. -/
def lineField (l : Str) : Option Str :=
  (splitColon (stripCR l)).map Prod.fst

theorem getLast?_append_right {v : Str} (l : Str) (h : v ≠ []) :
    (l ++ v).getLast? = v.getLast? := by
  induction l with
  | nil => rfl
  | cons c cs ih =>
    have hne : cs ++ v ≠ [] := fun hh => h (List.append_eq_nil.mp hh).2
    obtain ⟨a, as, ha⟩ := List.exists_cons_of_ne_nil hne
    rw [List.cons_append, ha, List.getLast?_cons_cons, ← ha, ih]

theorem stripCR_of_no_cr {l : Str} (h : l.getLast? ≠ some '\r') :
    stripCR l = l := by
  rw [stripCR, if_neg h]

theorem getLast?_field_line {p v : Str} (hpl : p.getLast? ≠ some '\r')
    (hv : v.getLast? ≠ some '\r') : (p ++ v).getLast? ≠ some '\r' := by
  cases v with
  | nil => simpa using hpl
  | cons a as => rw [getLast?_append_right p (by simp)]; exact hv

theorem no_newline_append {p v : Str} (hp : '\n' ∉ p) (hv : '\n' ∉ v) :
    '\n' ∉ p ++ v := by
  intro hm
  rcases List.mem_append.mp hm with h1 | h1
  · exact hp h1
  · exact hv h1

theorem splitColon_before_colon {p : Str} (h : ':' ∉ p) (rest : Str) :
    splitColon (p ++ ':' :: rest) = some (p, rest) := by
  induction p with
  | nil => simp [splitColon]
  | cons c cs ih =>
    have hc : c ≠ ':' := fun hc => h (by simp [hc])
    have ih' := ih (fun hm => h (List.mem_cons_of_mem _ hm))
    simp [splitColon, hc, ih']

theorem processLine_blank (f : SSEFields) : processLine f [] = process_sse_event f := rfl

theorem processLine_dataLine (f : SSEFields) {v : Str} (hcr : v.getLast? ≠ some '\r') :
    processLine f (dataLine v) =
      ({ f with event_data := appendData f.event_data v }, []) := by
  have hl : stripCR (dataLine v) = dataLine v :=
    stripCR_of_no_cr (getLast?_field_line (p := "data: ".toList) (by decide) hcr)
  have hs : splitColon (dataLine v) = some ("data".toList, ' ' :: v) :=
    splitColon_before_colon (p := "data".toList) (by decide) (' ' :: v)
  unfold processLine
  rw [hl, if_neg (show dataLine v ≠ [] by simp [dataLine]), hs]
  rfl

theorem processLine_idLine (f : SSEFields) {v : Str} (hcr : v.getLast? ≠ some '\r') :
    processLine f (idLine v) =
      ({ f with last_event_id := v }, []) := by
  have hl : stripCR (idLine v) = idLine v :=
    stripCR_of_no_cr (getLast?_field_line (p := "id: ".toList) (by decide) hcr)
  have hs : splitColon (idLine v) = some ("id".toList, ' ' :: v) :=
    splitColon_before_colon (p := "id".toList) (by decide) (' ' :: v)
  unfold processLine
  rw [hl, if_neg (show idLine v ≠ [] by simp [idLine]), hs]
  rfl

theorem processLine_retryLine (f : SSEFields) {v : Str} (hcr : v.getLast? ≠ some '\r') :
    processLine f (retryLine v) = (f, []) := by
  have hl : stripCR (retryLine v) = retryLine v :=
    stripCR_of_no_cr (getLast?_field_line (p := "retry: ".toList) (by decide) hcr)
  have hs : splitColon (retryLine v) = some ("retry".toList, ' ' :: v) :=
    splitColon_before_colon (p := "retry".toList) (by decide) (' ' :: v)
  unfold processLine
  rw [hl, if_neg (show retryLine v ≠ [] by simp [retryLine]), hs]
  rfl

/-- Join a list of values with a single `'\n'` separator, no trailing newline. -/
def joinNL : List Str → Str
  | [] => []
  | [v] => v
  | v :: vs => v ++ '\n' :: joinNL vs

theorem joinNL_cons_cons (a b : Str) (l : List Str) :
    joinNL (a :: b :: l) = a ++ '\n' :: joinNL (b :: l) := rfl

/-- Drop the longest leading run of empty values. -/
def dropLeadingEmpties : List Str → List Str
  | [] => []
  | v :: vs => if v = [] then dropLeadingEmpties vs else v :: vs

theorem foldl_appendData_of_ne {d : Str} (vs : List Str) (hd : d ≠ []) :
    vs.foldl appendData d = joinNL (d :: vs) := by
  induction vs generalizing d with
  | nil => simp [joinNL]
  | cons v vs ih =>
    rw [List.foldl_cons, show appendData d v = d ++ '\n' :: v from by simp [appendData, hd],
        ih (by simp)]
    cases vs with
    | nil => simp [joinNL]
    | cons w ws =>
      rw [joinNL_cons_cons, joinNL_cons_cons, joinNL_cons_cons]
      simp

theorem foldl_appendData_nil (vs : List Str) :
    vs.foldl appendData [] = joinNL (dropLeadingEmpties vs) := by
  induction vs with
  | nil => simp [joinNL, dropLeadingEmpties]
  | cons v vs ih =>
    by_cases hv : v = []
    · subst hv
      rw [List.foldl_cons, show appendData [] [] = [] from rfl, ih]
      simp [dropLeadingEmpties]
    · rw [List.foldl_cons, show appendData [] v = v from by simp [appendData],
          foldl_appendData_of_ne vs hv]
      simp [dropLeadingEmpties, hv]

theorem dropLeadingEmpties_head_ne {vs : List Str} {w : Str} {ws : List Str}
    (h : dropLeadingEmpties vs = w :: ws) : w ≠ [] := by
  induction vs with
  | nil => simp [dropLeadingEmpties] at h
  | cons v vs ih =>
    rw [dropLeadingEmpties] at h
    by_cases hv : v = []
    · rw [if_pos hv] at h; exact ih h
    · rw [if_neg hv] at h
      obtain ⟨rfl, rfl⟩ : v = w ∧ vs = ws := by simpa using h
      exact hv

theorem joinNL_ne_nil {w : Str} (ws : List Str) (hw : w ≠ []) :
    joinNL (w :: ws) ≠ [] := by
  cases ws with
  | nil => simpa [joinNL] using hw
  | cons a as =>
    rw [joinNL_cons_cons]
    intro hc
    rcases List.append_eq_nil.mp hc with ⟨h1, h2⟩
    exact hw h1

theorem foldLines_dataLines (f : SSEFields) (vs : List Str)
    (h : ∀ v ∈ vs, v.getLast? ≠ some '\r') :
    foldLines f (vs.map dataLine) =
      ({ f with event_data := vs.foldl appendData f.event_data }, []) := by
  induction vs generalizing f with
  | nil => simp [foldLines]
  | cons v vs ih =>
    simp only [List.map_cons, foldLines]
    rw [processLine_dataLine f (h v (List.mem_cons_self _ _)),
        ih _ (fun x hx => h x (List.mem_cons_of_mem _ hx))]
    simp

/-- A well-formed single-event data stream: one `data:` line per value,
terminated by the blank line that finalizes the event. -/
def sseDataStream (vs : List Str) : Str :=
  fieldLineStream (vs.map dataLine ++ [[]])

theorem no_newline_dataLine {v : Str} (h : '\n' ∉ v) : '\n' ∉ dataLine v :=
  no_newline_append (p := "data: ".toList) (by decide) h

/--
C3 (amended): for every event finalized by a blank line, the event's data is
the `'\n'`-joined concatenation of the `data:` values of the event **after
dropping the longest leading run of empty values** (the code inserts the
separator only when the accumulated data is nonempty, so leading empty values
leave no trace), its type is `"message"` when no `event:` field was seen, and
no event at all is emitted when every value was empty.  The claim's particular
scenario `data: a` / `data: b` is the witness below.
-/
theorem data_join_semantics (vs : List Str)
    (h : ∀ v ∈ vs, '\n' ∉ v ∧ v.getLast? ≠ some '\r') :
    (parse_sse_chunk initParserState (sseDataStream vs)).2 =
      (if dropLeadingEmpties vs = [] then []
       else [⟨[], "message".toList, joinNL (dropLeadingEmpties vs)⟩]) := by
  have hlines : ∀ l ∈ vs.map dataLine ++ [[]], '\n' ∉ l := by
    intro l hl
    rcases List.mem_append.mp hl with h1 | h1
    · obtain ⟨v, hv, rfl⟩ := List.mem_map.mp h1
      exact no_newline_dataLine (h v hv).1
    · obtain rfl : l = [] := by simpa using h1
      simp
  have hne : sseDataStream vs ≠ [] := by
    unfold sseDataStream
    rw [show vs.map dataLine ++ [[]] = vs.map dataLine ++ [[]] from rfl]
    induction vs with
    | nil => decide
    | cons v vs _ =>
      rw [List.map_cons, List.cons_append, fieldLineStream_cons]
      simp [dataLine]
  unfold parse_sse_chunk
  rw [if_neg hne]
  have hbuf : initParserState.buffer ++ sseDataStream vs = sseDataStream vs := by
    simp [initParserState]
  rw [hbuf]
  unfold sseDataStream
  rw [parseLoop_lines _ _ hlines, foldLines_append]
  rw [foldLines_dataLines _ vs (fun v hv => (h v hv).2)]
  simp only [initParserState, List.nil_append]
  rw [show foldLines (⟨[], vs.foldl appendData [], []⟩ : SSEFields) [[]] =
        ((process_sse_event ⟨[], vs.foldl appendData [], []⟩).1,
         (process_sse_event ⟨[], vs.foldl appendData [], []⟩).2) from by
      simp [foldLines, processLine_blank]]
  rw [foldl_appendData_nil]
  cases hd : dropLeadingEmpties vs with
  | nil =>
    simp [process_sse_event, joinNL]
  | cons w ws =>
    have hw : w ≠ [] := dropLeadingEmpties_head_ne hd
    have hjoin : joinNL (w :: ws) ≠ [] := joinNL_ne_nil ws hw
    simp [process_sse_event, hjoin]

theorem processLine_id_invariant (f : SSEFields) (l : Str)
    (h : lineField l ≠ some ("id".toList : Str)) :
    (processLine f l).1.last_event_id = f.last_event_id ∧
    ∀ e ∈ (processLine f l).2, e.id = f.last_event_id := by
  unfold processLine
  dsimp only
  split
  · unfold process_sse_event
    split
    · exact ⟨rfl, by simp⟩
    · refine ⟨rfl, ?_⟩
      intro e he
      simp only [List.mem_singleton] at he
      subst he
      rfl
  · split
    · exact ⟨rfl, by simp⟩
    · rename_i hne hsome
      split
      · exact ⟨rfl, by simp⟩
      · split
        · exact ⟨rfl, by simp⟩
        · split
          · rename_i hid
            exact absurd (show lineField l = some "id".toList by
              rw [lineField, hsome]; simp [hid]) h
          · exact ⟨rfl, by simp⟩

theorem foldLines_id_invariant (f : SSEFields) (ls : List Str)
    (h : ∀ l ∈ ls, lineField l ≠ some ("id".toList : Str)) :
    (foldLines f ls).1.last_event_id = f.last_event_id ∧
    ∀ e ∈ (foldLines f ls).2, e.id = f.last_event_id := by
  induction ls generalizing f with
  | nil => exact ⟨rfl, by simp [foldLines]⟩
  | cons l ls ih =>
    have h1 := processLine_id_invariant f l (h l (List.mem_cons_self _ _))
    have h2 := ih (processLine f l).1 (fun x hx => h x (List.mem_cons_of_mem _ hx))
    simp only [foldLines]
    constructor
    · rw [h2.1, h1.1]
    · intro e he
      rcases List.mem_append.mp he with hm | hm
      · exact h1.2 e hm
      · rw [h2.2 e hm, h1.1]

/-- The three mandatory SSE headers appended at lines 356-358. -/
def mandatoryHeaders : List Str :=
  ["Accept: text/event-stream".toList, "Cache-Control: no-cache".toList,
   "Connection: keep-alive".toList]

/-- Header assembly of `attempt_connection` (lines 355-373): the mandatory SSE
headers, then `Last-Event-ID` only when the persisted id is nonempty (lines
360-364), then the caller-supplied custom headers as `key: value`. -/
def buildHeaders (last_event_id : Str) (custom : List (Str × Str)) : List Str :=
  mandatoryHeaders ++
    (if last_event_id = [] then []
     else ["Last-Event-ID: ".toList ++ last_event_id]) ++
    custom.map (fun p => p.1 ++ ':' :: ' ' :: p.2)

/-- C2: for every SSE byte stream (in particular every well-formed one) and
every partition of it into a sequence of chunks split at arbitrary byte
boundaries, feeding the chunks one by one to `parse_sse_chunk` emits exactly
the same sequence of events, in the same order, as feeding the whole stream as
a single chunk. -/
theorem chunk_split_invariance (cs : List Str) :
    (feedChunks initParserState cs).2 =
      (parse_sse_chunk initParserState cs.flatten).2 := by
  rw [feedChunks_flatten]

/-- C4: the persisted last-event-id is replaced exactly by `id:` lines and
survives across events: after an `id: v` line followed by any newline-free
lines none of which is an `id:` field line, the persisted id is still `v` and
every event finalized in that suffix carries id `v`, whether or not it had an
`id:` field of its own. -/
theorem id_persistence (f : SSEFields) (v : Str) (ls : List Str)
    (hv : '\n' ∉ v ∧ v.getLast? ≠ some '\r')
    (hls : ∀ l ∈ ls, '\n' ∉ l ∧ lineField l ≠ some ("id".toList : Str)) :
    ((parse_sse_chunk ⟨[], f⟩ (fieldLineStream (idLine v :: ls))).1.fields.last_event_id = v) ∧
    (∀ e ∈ (parse_sse_chunk ⟨[], f⟩ (fieldLineStream (idLine v :: ls))).2, e.id = v) := by
  have hlines : ∀ l ∈ idLine v :: ls, '\n' ∉ l := by
    intro l hl
    rcases List.mem_cons.mp hl with rfl | hm
    · exact no_newline_append (p := "id: ".toList) (by decide) hv.1
    · exact (hls l hm).1
  have hne : fieldLineStream (idLine v :: ls) ≠ [] := by
    rw [fieldLineStream_cons]
    simp [idLine]
  unfold parse_sse_chunk
  rw [if_neg hne]
  simp only [List.nil_append]
  rw [parseLoop_lines _ _ hlines]
  simp only [foldLines]
  rw [processLine_idLine f hv.2]
  have hinv := foldLines_id_invariant { f with last_event_id := v } ls
    (fun l hl => (hls l hl).2)
  refine ⟨hinv.1, ?_⟩
  intro e he
  simp only [List.nil_append] at he
  exact hinv.2 e he

/-- C4 witness: stream `id: 7` / `data: x` / blank; the persisted id is `7`. -/
theorem id_persistence_witness :
    (parse_sse_chunk ⟨[], ⟨[], [], []⟩⟩
        (fieldLineStream [idLine ['7'], dataLine ['x'], []])).1.fields.last_event_id = ['7'] :=
  (id_persistence ⟨[], [], []⟩ ['7'] [dataLine ['x'], []] (by decide) (by decide)).1

/-- C3 witness: the claim's own scenario `data: a` / `data: b` / blank emits
exactly one event of type `message` with data `a\nb`. -/
theorem data_join_semantics_witness :
    (parse_sse_chunk initParserState (sseDataStream [['a'], ['b']])).2 =
      [⟨[], "message".toList, ['a', '\n', 'b']⟩] := by
  rw [data_join_semantics [['a'], ['b']] (by decide)]
  decide

/-- C3 counterexample: on `data:` / `data: a` / blank the code emits data `a`,
not the `'\n'`-joined concatenation `\na` of all the `data:` values that the
claim requires (the separator is skipped while the accumulated data is
empty). -/
theorem data_join_counterexample :
    (parse_sse_chunk initParserState ("data:\ndata: a\n\n".toList)).2 =
      [⟨[], "message".toList, ['a']⟩] ∧
    joinNL [[], ['a']] = ['\n', 'a'] ∧
    (parse_sse_chunk initParserState ("data:\ndata: a\n\n".toList)).2 ≠
      [⟨[], "message".toList, joinNL [[], ['a']]⟩] := by
  refine ⟨?_, by decide, ?_⟩
  · rw [parse_sse_chunk_eq_exec]
    decide
  · rw [parse_sse_chunk_eq_exec]
    decide

/-- C7 (amended): a `retry:` line is parsed with `std::stoi` and clamped to
`[100, 60000]`, but the clamped value is then discarded (not stored anywhere);
well-formed or not, a `retry:` line never fails the parse and leaves the
pending event fields, the buffer tail and the persisted last-event-id all
unchanged.  `retry: 50` clamps to 100, `retry: 999999` to 60000, and
`retry: abc` is a caught error that is ignored. -/
theorem retry_line_ignored (f : SSEFields) (v : Str)
    (h : '\n' ∉ v ∧ v.getLast? ≠ some '\r') :
    parse_sse_chunk ⟨[], f⟩ (fieldLineStream [retryLine v]) = (⟨[], f⟩, []) ∧
    retryClamped ['5', '0'] = some 100 ∧
    retryClamped "999999".toList = some 60000 ∧
    retryClamped "abc".toList = none := by
  refine ⟨?_, by decide, by decide, by decide⟩
  have hlines : ∀ l ∈ [retryLine v], '\n' ∉ l := by
    intro l hl
    obtain rfl : l = retryLine v := by simpa using hl
    exact no_newline_append (p := "retry: ".toList) (by decide) h.1
  have hne : fieldLineStream [retryLine v] ≠ [] := by
    rw [fieldLineStream_cons]
    simp [retryLine]
  unfold parse_sse_chunk
  rw [if_neg hne]
  simp only [List.nil_append]
  rw [parseLoop_lines _ _ hlines]
  simp only [foldLines]
  rw [processLine_retryLine f h.2]
  rfl

/-- C7 witness: `retry: 50` leaves the whole parser state untouched and the
discarded clamp computation yields 100. -/
theorem retry_line_ignored_witness :
    parse_sse_chunk ⟨[], ⟨[], [], []⟩⟩ (fieldLineStream [retryLine ['5', '0']]) =
      (⟨[], ⟨[], [], []⟩⟩, []) ∧ retryClamped ['5', '0'] = some 100 :=
  ⟨(retry_line_ignored ⟨[], [], []⟩ ['5', '0'] (by decide)).1,
   (retry_line_ignored ⟨[], [], []⟩ ['5', '0'] (by decide)).2.1⟩

/-- C7 counterexample to "the clamped value is stored": feeding `retry: 50`
and feeding `retry: 60000` produce bit-for-bit identical post-states (both
equal to the initial state) and no events, so the clamped value is recorded
nowhere in the engine state. -/
theorem retry_not_stored_counterexample :
    parse_sse_chunk initParserState ("retry: 50\n".toList) = (initParserState, []) ∧
    parse_sse_chunk initParserState ("retry: 60000\n".toList) = (initParserState, []) := by
  constructor <;> (rw [parse_sse_chunk_eq_exec]; decide)

/-- C10: an `id:` line with empty value clears the persisted last-event-id
(rather than being a no-op): afterwards events carry the empty id, and header
assembly for the next connection attempt adds no `Last-Event-ID` header. -/
theorem empty_id_clears (i : Str) (custom : List (Str × Str)) :
    ((parse_sse_chunk ⟨[], ⟨[], [], i⟩⟩ ("id:\ndata: x\n\n".toList)).1.fields.last_event_id
        = []) ∧
    ((parse_sse_chunk ⟨[], ⟨[], [], i⟩⟩ ("id:\ndata: x\n\n".toList)).2 =
      [⟨[], "message".toList, ['x']⟩]) ∧
    buildHeaders [] custom =
      mandatoryHeaders ++ custom.map (fun p => p.1 ++ ':' :: ' ' :: p.2) := by
  refine ⟨?_, ?_, ?_⟩
  · rw [parse_sse_chunk_eq_exec]
    rfl
  · rw [parse_sse_chunk_eq_exec]
    rfl
  · simp [buildHeaders]

/-- A consumer callback (`std::function<void(const NitroEventSourceEvent&)>`);
applying it yields `some msg` when the invocation raises, which the dispatch
boundary catches and logs. -/
abbrev Consumer := Event → Option Str

/-- Which consumer a dispatch invocation reached: the primary callback slot or
the i-th listener of the snapshot taken for the event's type. -/
inductive ConsumerRef where
  | primary
  | listener (i : Nat)
deriving DecidableEq, Repr

/-- One consumer invocation performed by `dispatch_event`: who was called,
with which event, and the caught message when the consumer raised. -/
structure DispatchRecord where
  ref : ConsumerRef
  delivered : Event
  caught : Option Str

/-- Lookup in the listener `unordered_map`, embedded as an association list
with unique keys. -/
def regFind {α : Type} : List (Str × α) → Str → Option α
  | [], _ => none
  | (k, v) :: rest, key => if k = key then some v else regFind rest key

/-- Replace the value stored at an existing key. -/
def regSet {α : Type} : List (Str × α) → Str → α → List (Str × α)
  | [], _, _ => []
  | (k, v) :: rest, key, nv =>
    if k = key then (k, nv) :: rest else (k, v) :: regSet rest key nv

/-- Erase a key's entry (`_event_listeners.erase(it)`, line 189). -/
def regErase {α : Type} : List (Str × α) → Str → List (Str × α)
  | [], _ => []
  | (k, v) :: rest, key => if k = key then rest else (k, v) :: regErase rest key

/-- `_event_listeners[type].emplace_back(listener)` (line 161): append to the
type's list, creating the entry when absent. -/
def regAddListener {α : Type} (m : List (Str × List α)) (key : Str) (l : α) :
    List (Str × List α) :=
  match regFind m key with
  | some ls => regSet m key (ls ++ [l])
  | none => m ++ [(key, [l])]

/-- The registry mutation of `removeEventListener` (lines 169-191): find the
type's entry; when present and nonempty pop the most recently appended
listener (`pop_back`), erasing the entry if it became empty; otherwise do
nothing. -/
def regRemoveListener {α : Type} (m : List (Str × List α)) (key : Str) :
    List (Str × List α) :=
  match regFind m key with
  | none => m
  | some [] => m
  | some (l0 :: ls0) =>
    match (l0 :: ls0).dropLast with
    | [] => regErase m key
    | l1 :: ls1 => regSet m key (l1 :: ls1)

/-- The mutable state of a `HybridNitroEventSource` object (header lines
39-70): the atomic flags, the primary callback slot, the per-type listener
registry, and the parser strings; a sequential embedding of the fields. -/
structure EngineState where
  closed : Bool
  running : Bool
  should_retry : Bool
  event_callback : Option Consumer
  event_listeners : List (Str × List Consumer)
  parserState : ParserState

/-- `close` (lines 95-140): `_closed.exchange(true)` makes every call after the
first return immediately; the first call stops the loop flags, clears the
primary-callback slot and the listener registry, joins the connection thread,
and clears `_buffer`, `_event_type` and `_event_data` (`_last_event_id` is
kept). -/
def close (s : EngineState) : EngineState :=
  if s.closed then s
  else
    { s with
        closed := true
        running := false
        should_retry := false
        event_callback := none
        event_listeners := []
        parserState := ⟨[], ⟨[], [], s.parserState.fields.last_event_id⟩⟩ }

/-- `setEventCallback` (lines 142-148): store the callback in the primary
slot under the callback mutex.  The source performs no `_closed` check here. -/
def setEventCallback (s : EngineState) (cb : Consumer) : EngineState :=
  { s with event_callback := some cb }

/-- `addEventListener` (lines 150-162): rejected (logged only) when the object
is closed; otherwise append the listener to the type's list. -/
def addEventListener (s : EngineState) (ty : Str) (l : Consumer) : EngineState :=
  if s.closed then s
  else { s with event_listeners := regAddListener s.event_listeners ty l }

/-- `removeEventListener` (lines 164-192): the supplied callback is ignored
(noted in the source: `std::function` objects cannot be reliably compared);
the most recently added listener for the type is removed instead. -/
def removeEventListener (s : EngineState) (ty : Str) (_cb : Consumer) : EngineState :=
  { s with event_listeners := regRemoveListener s.event_listeners ty }

/-- `dispatch_event` (lines 194-252): no-op when closed; otherwise invoke the
primary callback under a try/catch, then snapshot the listeners registered for
the event's type under the registry lock and invoke each one in registration
order, each under its own try/catch.  The mid-loop `_closed.load()` re-check
(line 236) cannot observe a change in this sequential embedding, because
`dispatch_event` never sets `_closed` itself.  Returns one invocation record
per consumer reached. -/
def dispatch_event (s : EngineState) (e : Event) : List DispatchRecord :=
  if s.closed then []
  else
    (match s.event_callback with
     | none => []
     | some cb => [⟨ConsumerRef.primary, e, cb e⟩]) ++
    ((regFind s.event_listeners e.type).getD []).enum.map
      (fun p => ⟨ConsumerRef.listener p.1, e, p.2 e⟩)

/-- The parsing path of `write_callback` (lines 50-55) together with the
dispatch performed by `process_sse_event` (line 491): when not closed, feed
the chunk to the parser and dispatch every completed event in order; when
closed nothing happens (guards at lines 401, 479, 488 and 197). -/
def engineFeed (s : EngineState) (chunk : Str) : EngineState × List DispatchRecord :=
  if s.closed then (s, [])
  else
    let r := parse_sse_chunk s.parserState chunk
    ({ s with parserState := r.1 }, (r.2.map (fun e => dispatch_event s e)).flatten)

/-- The result classes of `curl_easy_perform` distinguished at lines 382-395:
success, abort from the progress callback (cancellation), or any other
failure. -/
inductive CurlCode where
  | ok
  | abortedByCallback
  | otherError
deriving DecidableEq, Repr

/-- What the transport reported for one attempt: the perform result and the
HTTP status obtained via `CURLINFO_RESPONSE_CODE` (0 when none was
available). -/
structure TransferOutcome where
  code : CurlCode
  status : Nat
deriving DecidableEq, Repr

/-- The failure-reporting tail of `attempt_connection` (lines 380-395): on a
genuine failure (neither success nor cancellation abort) with a positive HTTP
status, hand exactly one `error` event, carrying the decimal status string,
to `dispatch_event`; return those events and the attempt's success flag. -/
def attempt_connection_report (s : EngineState) (t : TransferOutcome) :
    List Event × Bool :=
  match t.code with
  | CurlCode.ok => ([], true)
  | CurlCode.abortedByCallback => ([], true)
  | CurlCode.otherError =>
    (if 0 < t.status then
       [⟨s.parserState.fields.last_event_id, "error".toList, (toString t.status).toList⟩]
     else [], false)

theorem regFind_cons {α : Type} (k0 : Str) (v0 : α) (rest : List (Str × α))
    (key : Str) :
    regFind ((k0, v0) :: rest) key =
      if k0 = key then some v0 else regFind rest key := rfl

theorem regSet_cons {α : Type} (k0 : Str) (v0 : α) (rest : List (Str × α))
    (key : Str) (nv : α) :
    regSet ((k0, v0) :: rest) key nv =
      if k0 = key then (k0, nv) :: rest else (k0, v0) :: regSet rest key nv := rfl

theorem regErase_cons {α : Type} (k0 : Str) (v0 : α) (rest : List (Str × α))
    (key : Str) :
    regErase ((k0, v0) :: rest) key =
      if k0 = key then rest else (k0, v0) :: regErase rest key := rfl

theorem regFind_eq_none_of_not_mem {α : Type} {m : List (Str × α)} {k : Str}
    (h : k ∉ m.map Prod.fst) : regFind m k = none := by
  induction m with
  | nil => rfl
  | cons p rest ih =>
    obtain ⟨k', v'⟩ := p
    have hk : k' ≠ k := fun hk => h (by rw [List.map_cons, ← hk]; exact List.mem_cons_self _ _)
    rw [regFind_cons, if_neg hk]
    exact ih (fun hm => h (List.mem_cons_of_mem _ hm))

theorem regFind_regSet_self {α : Type} {m : List (Str × α)} {k : Str} {w : α}
    (h : regFind m k = some w) (v : α) : regFind (regSet m k v) k = some v := by
  induction m with
  | nil => exact Option.noConfusion h
  | cons p rest ih =>
    obtain ⟨k', v'⟩ := p
    by_cases hk : k' = k
    · rw [regSet_cons, if_pos hk, regFind_cons, if_pos hk]
    · rw [regFind_cons, if_neg hk] at h
      rw [regSet_cons, if_neg hk, regFind_cons, if_neg hk]
      exact ih h

theorem regFind_regErase_self {α : Type} {m : List (Str × α)}
    (hnd : (m.map Prod.fst).Nodup) (k : Str) :
    regFind (regErase m k) k = none := by
  induction m with
  | nil => rfl
  | cons p rest ih =>
    obtain ⟨k', v'⟩ := p
    rw [List.map_cons, List.nodup_cons] at hnd
    by_cases hk : k' = k
    · rw [regErase_cons, if_pos hk]
      subst hk
      exact regFind_eq_none_of_not_mem hnd.1
    · rw [regErase_cons, if_neg hk, regFind_cons, if_neg hk]
      exact ih hnd.2

theorem regFind_regSet_ne {α : Type} (m : List (Str × α)) {k k' : Str} (v : α)
    (h : k' ≠ k) : regFind (regSet m k v) k' = regFind m k' := by
  induction m with
  | nil => rfl
  | cons p rest ih =>
    obtain ⟨k0, v0⟩ := p
    by_cases hk : k0 = k
    · have hne : k0 ≠ k' := fun hc => h (hc.symm.trans hk)
      rw [regSet_cons, if_pos hk, regFind_cons, if_neg hne, regFind_cons, if_neg hne]
    · rw [regSet_cons, if_neg hk, regFind_cons, regFind_cons]
      by_cases hk' : k0 = k'
      · rw [if_pos hk', if_pos hk']
      · rw [if_neg hk', if_neg hk']
        exact ih

theorem regFind_regErase_ne {α : Type} (m : List (Str × α)) {k k' : Str}
    (h : k' ≠ k) : regFind (regErase m k) k' = regFind m k' := by
  induction m with
  | nil => rfl
  | cons p rest ih =>
    obtain ⟨k0, v0⟩ := p
    by_cases hk : k0 = k
    · have hne : k0 ≠ k' := fun hc => h (hc.symm.trans hk)
      rw [regErase_cons, if_pos hk, regFind_cons, if_neg hne]
    · rw [regErase_cons, if_neg hk, regFind_cons, regFind_cons]
      by_cases hk' : k0 = k'
      · rw [if_pos hk', if_pos hk']
      · rw [if_neg hk', if_neg hk']
        exact ih

/-- C5: `removeEventListener(type, cb)` ignores the identity of `cb`
completely; with no entry (or an empty entry) for the type it is a no-op;
otherwise it removes exactly the most recently added listener for the type
(LIFO, since `addEventListener` appends), deleting the type's registry entry
when the removal empties its list; entries for other types are untouched. -/
theorem removeEventListener_lifo (s : EngineState) (ty : Str) (cb cb' : Consumer)
    (hnd : (s.event_listeners.map Prod.fst).Nodup) :
    (removeEventListener s ty cb = removeEventListener s ty cb') ∧
    (regFind s.event_listeners ty = none → removeEventListener s ty cb = s) ∧
    (regFind s.event_listeners ty = some [] → removeEventListener s ty cb = s) ∧
    (∀ ls, regFind s.event_listeners ty = some ls → ls ≠ [] →
      regFind (removeEventListener s ty cb).event_listeners ty =
        (if ls.dropLast.isEmpty then none else some ls.dropLast)) ∧
    (∀ ty', ty' ≠ ty →
      regFind (removeEventListener s ty cb).event_listeners ty' =
        regFind s.event_listeners ty') := by
  refine ⟨rfl, ?_, ?_, ?_, ?_⟩
  · intro h
    unfold removeEventListener regRemoveListener
    rw [h]
  · intro h
    unfold removeEventListener regRemoveListener
    rw [h]
  · intro ls hfind hne
    unfold removeEventListener regRemoveListener
    rw [hfind]
    cases ls with
    | nil => exact absurd rfl hne
    | cons l0 ls0 =>
      dsimp only
      cases hdl : (l0 :: ls0).dropLast with
      | nil =>
        dsimp only
        rw [if_pos (show (([] : List Consumer)).isEmpty = true from rfl)]
        exact regFind_regErase_self hnd ty
      | cons l1 ls1 =>
        dsimp only
        rw [if_neg (show ¬((l1 :: ls1).isEmpty = true) from by simp)]
        exact regFind_regSet_self hfind (l1 :: ls1)
  · intro ty' hty
    unfold removeEventListener regRemoveListener
    cases hfind : regFind s.event_listeners ty with
    | none => rfl
    | some ls =>
      cases ls with
      | nil => rfl
      | cons l0 ls0 =>
        dsimp only
        cases hdl : (l0 :: ls0).dropLast with
        | nil => exact regFind_regErase_ne _ hty
        | cons l1 ls1 => exact regFind_regSet_ne _ _ hty

/-- A listener that never raises; used as a concrete consumer value. -/
def cOk : Consumer := fun _ => none

/-- A listener that raises on every invocation. -/
def cRaise : Consumer := fun _ => some "boom".toList

/-- A concrete open engine state with a primary callback, listeners and
nonempty parse strings. -/
def sOpen : EngineState :=
  ⟨false, true, true, some cOk, [("message".toList, [cOk])],
   ⟨"tail".toList, ⟨"t".toList, "d".toList, "7".toList⟩⟩⟩

/-- A concrete event. -/
def eMsg : Event := ⟨[], "message".toList, ['m']⟩

/-- C1: once the first `close()` call returns, the object is closed, the parse
buffer and the pending type/data fields are empty, and no dispatch to any
consumer — primary callback or per-type listener — can occur any more: both
`dispatch_event` and the chunk-feeding path deliver nothing on the closed
state. -/
theorem close_is_terminal (s : EngineState) (h : s.closed = false) :
    (close s).closed = true ∧
    (close s).parserState.buffer = [] ∧
    (close s).parserState.fields.event_type = [] ∧
    (close s).parserState.fields.event_data = [] ∧
    (∀ e, dispatch_event (close s) e = []) ∧
    (∀ chunk, engineFeed (close s) chunk = (close s, [])) := by
  have hc : close s =
      { s with
          closed := true
          running := false
          should_retry := false
          event_callback := none
          event_listeners := []
          parserState := ⟨[], ⟨[], [], s.parserState.fields.last_event_id⟩⟩ } := by
    rw [close, if_neg (by simp [h])]
  rw [hc]
  refine ⟨rfl, rfl, rfl, rfl, ?_, ?_⟩
  · intro e
    rw [dispatch_event, if_pos rfl]
  · intro chunk
    rw [engineFeed, if_pos rfl]

/-- C1 witness: closing a concrete open state with pending parse data yields a
closed state with empty buffers on which dispatch and chunk feeding deliver
nothing. -/
theorem close_is_terminal_witness :
    (close sOpen).closed = true ∧
    (close sOpen).parserState.buffer = [] ∧
    dispatch_event (close sOpen) eMsg = [] ∧
    engineFeed (close sOpen) ("data: y\n\n".toList) = (close sOpen, []) := by
  have h := close_is_terminal sOpen rfl
  exact ⟨h.1, h.2.1, h.2.2.2.2.1 eMsg, h.2.2.2.2.2 _⟩

/-- C6 (amended): after `close()`, `addEventListener` is rejected silently
(logged, no error) and leaves the state unchanged, but `setEventCallback` is
not guarded: it installs the callback in the primary slot (the listener
registry stays untouched); the installed callback is still never invoked,
because `dispatch_event` checks the closed flag first. -/
theorem registration_after_close (s : EngineState) (ty : Str) (l cb : Consumer)
    (h : s.closed = true) :
    addEventListener s ty l = s ∧
    (setEventCallback s cb).event_callback = some cb ∧
    (setEventCallback s cb).event_listeners = s.event_listeners ∧
    (∀ e, dispatch_event (setEventCallback s cb) e = []) := by
  refine ⟨?_, rfl, rfl, ?_⟩
  · rw [addEventListener, if_pos h]
  · intro e
    rw [dispatch_event, if_pos (show (setEventCallback s cb).closed = true from h)]

/-- A closed engine state obtained by actually closing a fresh open state. -/
def sClosed : EngineState := close ⟨false, true, true, none, [], initParserState⟩

/-- C6 witness: on the closed state, `addEventListener` changes nothing while
`setEventCallback` fills the primary slot whose callback is never invoked. -/
theorem registration_after_close_witness :
    addEventListener sClosed ("ping".toList) cOk = sClosed ∧
    (setEventCallback sClosed cOk).event_callback = some cOk ∧
    dispatch_event (setEventCallback sClosed cOk) eMsg = [] := by
  have h := registration_after_close sClosed ("ping".toList) cOk cOk rfl
  exact ⟨h.1, h.2.1, h.2.2.2 eMsg⟩

/-- C6 counterexample: the claim says `setPrimaryCallback`/`setEventCallback`
after `close()` leaves the registries unchanged, but the source has no closed
check there — the call replaces the primary-callback slot. -/
theorem setEventCallback_after_close_counterexample :
    sClosed.closed = true ∧
    (setEventCallback sClosed cOk).event_callback ≠ sClosed.event_callback := by
  refine ⟨rfl, ?_⟩
  intro hc
  exact Option.noConfusion hc

/-- C8: dispatch is failure-isolated: whatever each consumer does when invoked
(including raising, which is caught and recorded), every registered consumer
of the event — the primary callback if set, then every listener registered for
the event's type, in registration order — receives the event exactly once;
the invocation list does not depend on the outcomes, and no failure escapes
`dispatch_event`. -/
theorem dispatch_isolation (s : EngineState) (e : Event) (h : s.closed = false) :
    (dispatch_event s e).map (fun r => (r.ref, r.delivered)) =
      (match s.event_callback with
       | none => []
       | some _ => [(ConsumerRef.primary, e)]) ++
      (List.range ((regFind s.event_listeners e.type).getD []).length).map
        (fun i => (ConsumerRef.listener i, e)) := by
  rw [dispatch_event, if_neg (by simp [h]), List.map_append]
  congr 1
  · cases s.event_callback <;> rfl
  · rw [List.map_map]
    rw [show ((fun r : DispatchRecord => (r.ref, r.delivered)) ∘
          (fun p : Nat × Consumer => (⟨ConsumerRef.listener p.1, e, p.2 e⟩ : DispatchRecord))) =
        ((fun i : Nat => ((ConsumerRef.listener i, e) : ConsumerRef × Event)) ∘ Prod.fst)
        from rfl]
    rw [← List.map_map, List.enum_map_fst]

/-- A concrete state with a primary callback and two listeners for type
`message`, the first of which raises. -/
def sDispatch : EngineState :=
  ⟨false, true, true, some cOk, [("message".toList, [cRaise, cOk])], initParserState⟩

/-- C8 witness: with a raising listener registered first, the primary callback
and both listeners still all receive the event, and the raise is caught in its
invocation record. -/
theorem dispatch_isolation_witness :
    (dispatch_event sDispatch eMsg).map (fun r => (r.ref, r.delivered)) =
      [(ConsumerRef.primary, eMsg), (ConsumerRef.listener 0, eMsg),
       (ConsumerRef.listener 1, eMsg)] ∧
    (dispatch_event sDispatch eMsg).map (fun r => r.caught) =
      [none, some "boom".toList, none] := by
  constructor
  · rw [dispatch_isolation sDispatch eMsg rfl]
    rfl
  · rfl

/-- C9: a genuine transfer failure (neither success nor cancellation abort)
for which an HTTP status was obtained hands exactly one `error` event to
dispatch, with the decimal status string as data; an abort triggered by
cancellation produces no `error` event. -/
theorem error_event_on_failure (s : EngineState) (t : TransferOutcome) :
    (t.code = CurlCode.otherError → 0 < t.status →
      (attempt_connection_report s t).1 =
        [⟨s.parserState.fields.last_event_id, "error".toList,
          (toString t.status).toList⟩]) ∧
    (t.code = CurlCode.abortedByCallback →
      (attempt_connection_report s t).1 = []) := by
  obtain ⟨code, status⟩ := t
  constructor
  · intro hc hs
    cases hc
    simp [attempt_connection_report, hs]
  · intro hc
    cases hc
    rfl

/-- A fresh engine state whose persisted last-event-id is empty. -/
def sFresh : EngineState := ⟨false, true, true, none, [], initParserState⟩

/-- C9 witness: status 503 on a genuine failure yields exactly one `error`
event with data `"503"`; a cancellation abort yields none. -/
theorem error_event_on_failure_witness :
    (attempt_connection_report sFresh ⟨CurlCode.otherError, 503⟩).1 =
      [⟨[], "error".toList, "503".toList⟩] ∧
    (attempt_connection_report sFresh ⟨CurlCode.abortedByCallback, 503⟩).1 = [] := by
  constructor
  · have h := (error_event_on_failure sFresh ⟨CurlCode.otherError, 503⟩).1 rfl
      (by decide)
    rw [h]
    rfl
  · exact (error_event_on_failure sFresh ⟨CurlCode.abortedByCallback, 503⟩).2 rfl

/-- A concrete state with three listeners registered for type `ping`. -/
def sListeners : EngineState :=
  ⟨false, true, true, none, [("ping".toList, [cOk, cOk, cRaise])], initParserState⟩

/-- C5 witness: with three listeners for `ping`, removal ignores which callback
is supplied and pops the most recently added one, leaving the first two. -/
theorem removeEventListener_lifo_witness :
    removeEventListener sListeners ("ping".toList) cOk =
      removeEventListener sListeners ("ping".toList) cRaise ∧
    regFind (removeEventListener sListeners ("ping".toList) cOk).event_listeners
      ("ping".toList) = some [cOk, cOk] := by
  have h := removeEventListener_lifo sListeners ("ping".toList) cOk cRaise (by decide)
  refine ⟨h.1, ?_⟩
  have h4 := h.2.2.2.1 [cOk, cOk, cRaise] rfl (by simp)
  rw [h4]
  rfl

/-- C2 witness: splitting the stream `data: a\ndata: b\n\n` in the middle of
the second field name yields the same single emitted event as one chunk. -/
theorem chunk_split_invariance_witness :
    (feedChunks initParserState ["data: a\nda".toList, "ta: b\n\n".toList]).2 =
      (parse_sse_chunk initParserState ("data: a\ndata: b\n\n".toList)).2 ∧
    (parse_sse_chunk initParserState ("data: a\ndata: b\n\n".toList)).2 =
      [⟨[], "message".toList, "a\nb".toList⟩] := by
  constructor
  · have h := chunk_split_invariance ["data: a\nda".toList, "ta: b\n\n".toList]
    rw [h]
    rw [show (["data: a\nda".toList, "ta: b\n\n".toList] : List Str).flatten =
        ("data: a\ndata: b\n\n".toList : Str) from by decide]
  · rw [parse_sse_chunk_eq_exec]
    decide

/-- C10 witness: a previously persisted id `9` is cleared by an empty `id:`
line, and header assembly with the cleared id adds no `Last-Event-ID` header
next to the custom headers. -/
theorem empty_id_clears_witness :
    (parse_sse_chunk ⟨[], ⟨[], [], ['9']⟩⟩
        ("id:\ndata: x\n\n".toList)).1.fields.last_event_id = [] ∧
    buildHeaders [] [("X-Api-Key".toList, "k1".toList)] =
      mandatoryHeaders ++ ["X-Api-Key: k1".toList] := by
  have h := empty_id_clears ['9'] [("X-Api-Key".toList, "k1".toList)]
  refine ⟨h.1, ?_⟩
  rw [h.2.2]
  rfl

end NitroEventSource
